import Mathlib

/-!
# Double-buffered message cache (rosbag2_cpp/writers/cache/message_cache.cpp)

A shallow embedding of `rosbag2_cpp::writers::cache::MessageCache` and a
verification of its sequential contract.

* The two `std::shared_ptr<MessageCacheBuffer>` members are addresses into an
  explicit store of allocated buffer objects (`heap`), so that instance
  identity, aliasing and role exchange by `std::swap` of the two pointers can
  be stated.  Dereferencing an address that holds no object is a fault and is
  modelled by `none`.
* The mutex only serialises accesses and has no sequential content.
  `std::condition_variable` keeps no record of past notifications, so
  `notify_one` with no waiting thread changes nothing; `swap_when_allowed` is
  modelled by the transformation it performs once its wait has returned.
-/

set_option autoImplicit false

/-! ## Data model -/

/-- Modelled from the spec: the record type `rosbag2_storage::SerializedBagMessage`
is declared outside this source file.  The cache does not interpret a record:
it is a handle of which only the size is measured for capacity accounting. -/
structure SerializedBagMessage where
  handle : Nat
  size : Nat
  deriving DecidableEq, Repr

/-- Modelled from the spec: the class `MessageCacheBuffer` (the bounded buffer)
is declared and defined outside this source file.  It is an ordered sequence of
record handles in insertion order together with a fixed capacity limit given
at construction. -/
structure MessageCacheBuffer where
  buffer_ : List SerializedBagMessage
  capacity : Nat
  deriving DecidableEq, Repr

/-- Modelled from the spec: the constructor `MessageCacheBuffer(max_buffer_size)`
is missing from the source; a buffer is constructed empty with a fixed capacity. -/
def MessageCacheBuffer.construct (max_buffer_size : Nat) : MessageCacheBuffer :=
  { buffer_ := [], capacity := max_buffer_size }

/-- Modelled from the spec: `occupied_size()` is missing from the source; it is
the accumulated size of all contained records, in the unit of the capacity. -/
def MessageCacheBuffer.occupied_size (b : MessageCacheBuffer) : Nat :=
  (b.buffer_.map SerializedBagMessage.size).sum

/-- Modelled from the spec: `MessageCacheBuffer::push` (the bounded append) is
missing from the source.  It adds the record to the tail and returns true, or
returns false without mutating the buffer if adding would exceed the capacity
limit. -/
def MessageCacheBuffer.push (b : MessageCacheBuffer) (msg : SerializedBagMessage) :
    Bool × MessageCacheBuffer :=
  if b.occupied_size + msg.size ≤ b.capacity then
    (true, { b with buffer_ := b.buffer_ ++ [msg] })
  else
    (false, b)

/-- Modelled from the spec: `MessageCacheBuffer::size` is missing from the
source; the size query of the bounded buffer is its current occupancy. -/
def MessageCacheBuffer.size (b : MessageCacheBuffer) : Nat :=
  b.occupied_size

/-- An address of a buffer object in the store (the value of a `shared_ptr`). -/
abbrev BufferPtr := Nat

/-- Allocation `std::make_shared<MessageCacheBuffer>(...)`: a fresh object is
added to the store and its address is returned. -/
def make_shared (heap : List MessageCacheBuffer) (b : MessageCacheBuffer) :
    List MessageCacheBuffer × BufferPtr :=
  (heap ++ [b], heap.length)

/-- The state of a `MessageCache` object: the store of buffer objects it has
allocated, the two pointer members and the dropped-record counter.  The
counter member is declared in the header, which is not part of the source; it
is modelled from the spec as an unbounded monotonic counter. -/
structure MessageCache where
  heap : List MessageCacheBuffer
  primary_buffer_ : BufferPtr
  secondary_buffer_ : BufferPtr
  elements_dropped_ : Nat
  deriving DecidableEq, Repr

/-- Dereference of a buffer pointer; `none` when no object lives there. -/
def MessageCache.deref (c : MessageCache) (p : BufferPtr) : Option MessageCacheBuffer :=
  c.heap[p]?

/-! ## Operations of `MessageCache` -/

/-- Constructor `MessageCache::MessageCache(max_buffer_size)`: two buffers of
the same capacity are allocated, the first one referenced by `primary_buffer_`
and the second one by `secondary_buffer_`. -/
def MessageCache.construct (max_buffer_size : Nat) : MessageCache :=
  let r1 := make_shared [] (MessageCacheBuffer.construct max_buffer_size)
  let r2 := make_shared r1.1 (MessageCacheBuffer.construct max_buffer_size)
  { heap := r2.1, primary_buffer_ := r1.2, secondary_buffer_ := r2.2, elements_dropped_ := 0 }

/-- Method `MessageCache::allow_swap`: `swap_ready_.notify_one()`.  The
condition variable stores nothing, so the cache state is left as it is. -/
def MessageCache.allow_swap (c : MessageCache) : MessageCache :=
  c

/-- Method `MessageCache::push`: the record is pushed to the object referenced
by `primary_buffer_`, then `allow_swap` is called, then the dropped counter is
incremented if the record was not pushed; the push result is returned. -/
def MessageCache.push (c : MessageCache) (msg : SerializedBagMessage) :
    Option (Bool × MessageCache) :=
  match c.deref c.primary_buffer_ with
  | none => none
  | some b =>
    let r := b.push msg
    let pushed := r.1
    let c1 := { c with heap := c.heap.set c.primary_buffer_ r.2 }
    let c2 := c1.allow_swap
    let c3 := if !pushed then { c2 with elements_dropped_ := c2.elements_dropped_ + 1 } else c2
    some (pushed, c3)

/-- Method `MessageCache::swap_when_allowed`, once the wait on `swap_ready_`
has returned: `std::swap(primary_buffer_, secondary_buffer_)`. -/
def MessageCache.swap_when_allowed (c : MessageCache) : MessageCache :=
  { c with primary_buffer_ := c.secondary_buffer_, secondary_buffer_ := c.primary_buffer_ }

/-- Method `MessageCache::consumer_buffer`: returns `secondary_buffer_`. -/
def MessageCache.consumer_buffer (c : MessageCache) : BufferPtr :=
  c.secondary_buffer_

/-- The warning streamed by log_dropped: the total of lost messages (`lost`)
and the number left in the buffers (`left`). -/
structure DroppedWarning where
  lost : Nat
  left : Nat
  deriving DecidableEq, Repr

/-- The expression `primary_buffer_->size() + secondary_buffer_->size()` that
`log_dropped` streams into its warning. -/
def MessageCache.left_in_buffers (c : MessageCache) : Option Nat :=
  match c.deref c.primary_buffer_, c.deref c.secondary_buffer_ with
  | some p, some s => some (p.size + s.size)
  | _, _ => none

/-- Method `MessageCache::log_dropped`: when the dropped counter is positive a
single warning is emitted that carries the counter and the sum of the sizes of
the two buffers.  The result is the list of emitted warnings together with the
state after the call. -/
def MessageCache.log_dropped (c : MessageCache) : Option (List DroppedWarning × MessageCache) :=
  if c.elements_dropped_ > 0 then
    match c.left_in_buffers with
    | some n => some ([{ lost := c.elements_dropped_, left := n }], c)
    | none => none
  else
    some ([], c)

/-- Destructor `MessageCache::~MessageCache`: calls `log_dropped`. -/
def MessageCache.destructor (c : MessageCache) : Option (List DroppedWarning × MessageCache) :=
  c.log_dropped

/-! ## Callers: sequences of operations -/

/-- The public operations a caller can apply to a cache. -/
inductive CacheOp where
  | push (msg : SerializedBagMessage)
  | swap_when_allowed
  | consumer_buffer
  | log_dropped
  deriving DecidableEq, Repr

/-- What an operation hands back to its caller. -/
inductive CacheResult where
  | pushed (ok : Bool)
  | swapped
  | buffer (p : BufferPtr)
  | logged (out : List DroppedWarning)
  deriving DecidableEq, Repr

/-- One call of a public operation. -/
def MessageCache.step (c : MessageCache) : CacheOp → Option (CacheResult × MessageCache)
  | .push msg =>
    match c.push msg with
    | none => none
    | some r => some (.pushed r.1, r.2)
  | .swap_when_allowed => some (.swapped, c.swap_when_allowed)
  | .consumer_buffer => some (.buffer c.consumer_buffer, c)
  | .log_dropped =>
    match c.log_dropped with
    | none => none
    | some r => some (.logged r.1, r.2)

/-- A finite sequence of calls, in order, with the results of all calls. -/
def MessageCache.run (c : MessageCache) : List CacheOp → Option (List CacheResult × MessageCache)
  | [] => some ([], c)
  | op :: ops =>
    match c.step op with
    | none => none
    | some r =>
      match MessageCache.run r.2 ops with
      | none => none
      | some rs => some (r.1 :: rs.1, rs.2)

/-- A finite sequence of `push` calls, in order, with the result of each. -/
def MessageCache.push_all (c : MessageCache) :
    List SerializedBagMessage → Option (List Bool × MessageCache)
  | [] => some ([], c)
  | msg :: msgs =>
    match c.push msg with
    | none => none
    | some r =>
      match MessageCache.push_all r.2 msgs with
      | none => none
      | some rs => some (r.1 :: rs.1, rs.2)

/-- The records among `msgs` whose push returned true, in push order. -/
def accepted : List SerializedBagMessage → List Bool → List SerializedBagMessage
  | msg :: msgs, ok :: oks => if ok then msg :: accepted msgs oks else accepted msgs oks
  | _, _ => []

/-- The records accepted since the last swap in a trace of operations and
their results; `acc` holds the ones seen since the last swap so far. -/
def pushed_since_previous_swap :
    List CacheOp → List CacheResult → List SerializedBagMessage → List SerializedBagMessage
  | .push msg :: ops, .pushed ok :: rs, acc =>
    pushed_since_previous_swap ops rs (if ok then acc ++ [msg] else acc)
  | .swap_when_allowed :: ops, _ :: rs, _ => pushed_since_previous_swap ops rs []
  | _ :: ops, _ :: rs, acc => pushed_since_previous_swap ops rs acc
  | _, _, acc => acc

/-- Number of `push` calls in a sequence of operations. -/
def push_calls : List CacheOp → Nat
  | [] => 0
  | .push _ :: ops => push_calls ops + 1
  | _ :: ops => push_calls ops

/-- Number of `push` calls that returned `ok`. -/
def push_results (ok : Bool) : List CacheResult → Nat
  | [] => 0
  | .pushed b :: rs => if b = ok then push_results ok rs + 1 else push_results ok rs
  | _ :: rs => push_results ok rs

/-- Number of records held by all buffer objects of the cache. -/
def MessageCache.stored_records (c : MessageCache) : Nat :=
  (c.heap.map fun b => b.buffer_.length).sum

/-- Both pointer members reference an object, and not the same one. -/
def MessageCache.Valid (c : MessageCache) : Prop :=
  c.primary_buffer_ < c.heap.length ∧ c.secondary_buffer_ < c.heap.length ∧
    c.primary_buffer_ ≠ c.secondary_buffer_

instance (c : MessageCache) : Decidable c.Valid := by
  unfold MessageCache.Valid; infer_instance

/-- The role invariant relative to the cache constructed with `cap`: the two
pointers are the two addresses allocated by the constructor, one in each role,
no further object exists, and every object has capacity `cap`. -/
def MessageCache.RoleInv (cap : Nat) (c : MessageCache) : Prop :=
  c.heap.length = (MessageCache.construct cap).heap.length ∧
  ((c.primary_buffer_ = (MessageCache.construct cap).primary_buffer_ ∧
      c.secondary_buffer_ = (MessageCache.construct cap).secondary_buffer_) ∨
    (c.primary_buffer_ = (MessageCache.construct cap).secondary_buffer_ ∧
      c.secondary_buffer_ = (MessageCache.construct cap).primary_buffer_)) ∧
  c.primary_buffer_ ≠ c.secondary_buffer_ ∧
  ∀ b ∈ c.heap, b.capacity = cap

/-! ## Basic facts about the store and the bounded buffer -/

theorem set_same_of_getElem? {α : Type} (l : List α) (i : Nat) (a : α)
    (h : l[i]? = some a) : l.set i a = l := by
  induction l generalizing i with
  | nil => simp
  | cons x xs ih =>
    cases i with
    | zero => simp at h; simp [h]
    | succ j => simp at h; simp [ih j h]

theorem lt_length_of_getElem? {α : Type} (l : List α) (i : Nat) (a : α)
    (h : l[i]? = some a) : i < l.length := by
  rcases Nat.lt_or_ge i l.length with hlt | hge
  · exact hlt
  · rw [List.getElem?_eq_none hge] at h; cases h

theorem MessageCacheBuffer.push_rejected (b : MessageCacheBuffer) (msg : SerializedBagMessage)
    (h : (b.push msg).1 = false) : (b.push msg).2 = b := by
  unfold MessageCacheBuffer.push at *
  split <;> simp_all

theorem MessageCacheBuffer.push_fst (b : MessageCacheBuffer) (msg : SerializedBagMessage) :
    (b.push msg).1 = decide (b.occupied_size + msg.size ≤ b.capacity) := by
  unfold MessageCacheBuffer.push
  split <;> simp_all

theorem MessageCacheBuffer.push_snd (b : MessageCacheBuffer) (msg : SerializedBagMessage) :
    (b.push msg).2 =
      { buffer_ := b.buffer_ ++ (if (b.push msg).1 then [msg] else []), capacity := b.capacity } := by
  unfold MessageCacheBuffer.push
  split <;> simp

theorem MessageCache.push_eq (c : MessageCache) (msg : SerializedBagMessage)
    (b : MessageCacheBuffer) (hb : c.deref c.primary_buffer_ = some b) :
    c.push msg = some ((b.push msg).1,
      { heap := c.heap.set c.primary_buffer_ (b.push msg).2,
        primary_buffer_ := c.primary_buffer_,
        secondary_buffer_ := c.secondary_buffer_,
        elements_dropped_ :=
          if (b.push msg).1 then c.elements_dropped_ else c.elements_dropped_ + 1 }) := by
  unfold MessageCache.push
  rw [hb]
  cases hr : (b.push msg).1 <;> simp [MessageCache.allow_swap, hr]

/-! ## The concrete scenarios of the specification -/

theorem scenario_three_pushes_swap_report :
    (MessageCache.construct 100).run
        [.push ⟨1, 40⟩, .push ⟨2, 40⟩, .push ⟨3, 30⟩, .swap_when_allowed, .consumer_buffer,
          .log_dropped] =
      some ([.pushed true, .pushed true, .pushed false, .swapped, .buffer 0,
          .logged [⟨1, 80⟩]],
        { heap := [⟨[⟨1, 40⟩, ⟨2, 40⟩], 100⟩, ⟨[], 100⟩], primary_buffer_ := 1,
          secondary_buffer_ := 0, elements_dropped_ := 1 }) := by
  decide

theorem scenario_oversized_record :
    (MessageCache.construct 100).push ⟨1, 150⟩ =
      some (false, { heap := [⟨[], 100⟩, ⟨[], 100⟩], primary_buffer_ := 0,
                     secondary_buffer_ := 1, elements_dropped_ := 1 }) := by
  decide

/-! ## Claims -/

/-- C1: when the append on the producer-facing buffer rejects the record,
`MessageCache.push` returns false without a fault, every buffer object (and so
the occupied size of the producer-facing and of the consumer-facing buffer) is
unchanged, the roles are unchanged, and the dropped counter is one greater than
before. -/
theorem C1_rejected_push_counts_one_drop (c : MessageCache) (msg : SerializedBagMessage)
    (b : MessageCacheBuffer) (hb : c.deref c.primary_buffer_ = some b)
    (hrej : (b.push msg).1 = false) :
    ∃ c1 : MessageCache, c.push msg = some (false, c1) ∧
      c1.elements_dropped_ = c.elements_dropped_ + 1 ∧
      (c1.deref c1.primary_buffer_).map MessageCacheBuffer.occupied_size =
        (c.deref c.primary_buffer_).map MessageCacheBuffer.occupied_size ∧
      (c1.deref c1.consumer_buffer).map MessageCacheBuffer.occupied_size =
        (c.deref c.consumer_buffer).map MessageCacheBuffer.occupied_size ∧
      c1 = { c with elements_dropped_ := c.elements_dropped_ + 1 } := by
  have hset : c.heap.set c.primary_buffer_ b = c.heap :=
    set_same_of_getElem? c.heap c.primary_buffer_ b hb
  refine ⟨{ c with elements_dropped_ := c.elements_dropped_ + 1 }, ?_, rfl, rfl, rfl, rfl⟩
  rw [MessageCache.push_eq c msg b hb, MessageCacheBuffer.push_rejected b msg hrej, hrej, hset]
  simp

/-- Witness for C1: a record of size 150 against a fresh cache of capacity 100. -/
theorem C1_rejected_push_counts_one_drop_witness :
    (MessageCache.construct 100).deref (MessageCache.construct 100).primary_buffer_ =
        some (MessageCacheBuffer.construct 100) ∧
      ((MessageCacheBuffer.construct 100).push ⟨7, 150⟩).1 = false ∧
      ∃ c1 : MessageCache, (MessageCache.construct 100).push ⟨7, 150⟩ = some (false, c1) ∧
      c1.elements_dropped_ = (MessageCache.construct 100).elements_dropped_ + 1 ∧
      (c1.deref c1.primary_buffer_).map MessageCacheBuffer.occupied_size =
        ((MessageCache.construct 100).deref
          (MessageCache.construct 100).primary_buffer_).map MessageCacheBuffer.occupied_size ∧
      (c1.deref c1.consumer_buffer).map MessageCacheBuffer.occupied_size =
        ((MessageCache.construct 100).deref
          (MessageCache.construct 100).consumer_buffer).map MessageCacheBuffer.occupied_size ∧
      c1 = { MessageCache.construct 100 with
              elements_dropped_ := (MessageCache.construct 100).elements_dropped_ + 1 } :=
  ⟨by decide, by decide,
    C1_rejected_push_counts_one_drop (MessageCache.construct 100) ⟨7, 150⟩
      (MessageCacheBuffer.construct 100) (by decide) (by decide)⟩

/-- C6: in a cache whose two pointers reference two distinct objects, `push`
returns without a fault and, whether the record is accepted or rejected, leaves
the consumer-facing buffer object, the role assignment and every object other
than the producer-facing one unchanged; the dropped counter changes by nothing
else than the count of this call. -/
theorem C6_push_frames_consumer_side (c : MessageCache) (msg : SerializedBagMessage)
    (hv : c.Valid) :
    ∃ (pushed : Bool) (c1 : MessageCache), c.push msg = some (pushed, c1) ∧
      c1.deref c1.consumer_buffer = c.deref c.consumer_buffer ∧
      c1.primary_buffer_ = c.primary_buffer_ ∧
      c1.secondary_buffer_ = c.secondary_buffer_ ∧
      c1.heap.length = c.heap.length ∧
      (∀ p : BufferPtr, p ≠ c.primary_buffer_ → c1.deref p = c.deref p) ∧
      c1.elements_dropped_ = c.elements_dropped_ + (if pushed then 0 else 1) := by
  obtain ⟨hp, _, hne⟩ := hv
  have hb : c.deref c.primary_buffer_ = some (c.heap.get ⟨c.primary_buffer_, hp⟩) := by
    simp [MessageCache.deref, List.getElem?_eq_getElem hp]
  refine ⟨_, _, MessageCache.push_eq c msg _ hb, ?_, rfl, rfl, ?_, ?_, ?_⟩
  · simp [MessageCache.deref, MessageCache.consumer_buffer, List.getElem?_set_ne hne]
  · simp
  · intro p hpne
    simp [MessageCache.deref, List.getElem?_set_ne (Ne.symm hpne)]
  · split <;> simp

/-- Witness for C6: after one swap of a fresh cache, a push leaves the consumer
side as it was. -/
theorem C6_push_frames_consumer_side_witness :
    (MessageCache.construct 100).swap_when_allowed.Valid ∧
    ∃ (pushed : Bool) (c1 : MessageCache),
      (MessageCache.construct 100).swap_when_allowed.push ⟨1, 40⟩ = some (pushed, c1) ∧
      c1.deref c1.consumer_buffer =
        (MessageCache.construct 100).swap_when_allowed.deref
          (MessageCache.construct 100).swap_when_allowed.consumer_buffer ∧
      c1.primary_buffer_ = (MessageCache.construct 100).swap_when_allowed.primary_buffer_ ∧
      c1.secondary_buffer_ = (MessageCache.construct 100).swap_when_allowed.secondary_buffer_ ∧
      c1.heap.length = (MessageCache.construct 100).swap_when_allowed.heap.length ∧
      (∀ p : BufferPtr, p ≠ (MessageCache.construct 100).swap_when_allowed.primary_buffer_ →
        c1.deref p = (MessageCache.construct 100).swap_when_allowed.deref p) ∧
      c1.elements_dropped_ =
        (MessageCache.construct 100).swap_when_allowed.elements_dropped_ +
          (if pushed then 0 else 1) :=
  ⟨by decide,
    C6_push_frames_consumer_side (MessageCache.construct 100).swap_when_allowed ⟨1, 40⟩
      (by decide)⟩

/-- C10: `swap_when_allowed` only exchanges the two roles: afterwards
`consumer_buffer` is the pointer that was producer-facing and the
producer-facing pointer is the one that was consumer-facing, every buffer
object, the combined size and the dropped counter are unchanged, and a second
swap restores the original state. -/
theorem C10_swap_is_role_exchange_involution (c : MessageCache) :
    c.swap_when_allowed.consumer_buffer = c.primary_buffer_ ∧
    c.swap_when_allowed.primary_buffer_ = c.consumer_buffer ∧
    c.swap_when_allowed.heap = c.heap ∧
    (∀ p : BufferPtr, c.swap_when_allowed.deref p = c.deref p) ∧
    c.swap_when_allowed.left_in_buffers = c.left_in_buffers ∧
    c.swap_when_allowed.elements_dropped_ = c.elements_dropped_ ∧
    c.swap_when_allowed.swap_when_allowed = c := by
  refine ⟨rfl, rfl, rfl, fun _ => rfl, ?_, rfl, rfl⟩
  unfold MessageCache.left_in_buffers MessageCache.swap_when_allowed MessageCache.deref
  cases h1 : c.heap[c.primary_buffer_]? <;> cases h2 : c.heap[c.secondary_buffer_]? <;>
    simp [Nat.add_comm]

/-- C8: in a cache whose two pointers reference objects, `log_dropped` returns
without a fault, emits a warning exactly when the dropped counter is nonzero,
the warning carries the counter and the sum of the sizes of the producer-facing
and consumer-facing buffers, the cache state is unchanged, a second call gives
the same output, and the destructor does the same. -/
theorem C8_log_dropped_reports_iff_dropped (c : MessageCache) (p s : MessageCacheBuffer)
    (hp : c.deref c.primary_buffer_ = some p) (hs : c.deref c.secondary_buffer_ = some s) :
    ∃ out : List DroppedWarning, c.log_dropped = some (out, c) ∧
      (out ≠ [] ↔ c.elements_dropped_ ≠ 0) ∧
      (c.elements_dropped_ ≠ 0 →
        out = [{ lost := c.elements_dropped_, left := p.size + s.size }]) ∧
      (c.log_dropped.bind fun r => r.2.log_dropped) = some (out, c) ∧
      c.destructor = some (out, c) := by
  have hl : c.left_in_buffers = some (p.size + s.size) := by
    simp [MessageCache.left_in_buffers, hp, hs]
  by_cases hd : c.elements_dropped_ = 0
  · have h0 : c.log_dropped = some ([], c) := by simp [MessageCache.log_dropped, hd]
    exact ⟨[], h0, by simp [hd], by simp [hd], by simp [h0], by simp [MessageCache.destructor, h0]⟩
  · have hpos : c.elements_dropped_ > 0 := Nat.pos_of_ne_zero hd
    have h1 : c.log_dropped =
        some ([{ lost := c.elements_dropped_, left := p.size + s.size }], c) := by
      simp [MessageCache.log_dropped, hpos, hl]
    exact ⟨_, h1, by simp [hd], fun _ => rfl, by simp [h1], by simp [MessageCache.destructor, h1]⟩

/-- Witness for C8: the state after pushes of size 40, 40 and 30 against
capacity 100, where one record has been dropped and 80 units are left. -/
theorem C8_log_dropped_reports_iff_dropped_witness :
    ∃ c : MessageCache,
      (MessageCache.construct 100).push_all [⟨1, 40⟩, ⟨2, 40⟩, ⟨3, 30⟩] =
        some ([true, true, false], c) ∧
      c.deref c.primary_buffer_ = some { buffer_ := [⟨1, 40⟩, ⟨2, 40⟩], capacity := 100 } ∧
      c.deref c.secondary_buffer_ = some { buffer_ := [], capacity := 100 } ∧
      c.log_dropped = some ([{ lost := 1, left := 80 }], c) ∧
      ∃ out : List DroppedWarning, c.log_dropped = some (out, c) ∧
        (out ≠ [] ↔ c.elements_dropped_ ≠ 0) ∧
        (c.elements_dropped_ ≠ 0 →
          out = [{ lost := c.elements_dropped_,
                   left := MessageCacheBuffer.size
                       { buffer_ := [⟨1, 40⟩, ⟨2, 40⟩], capacity := 100 } +
                     MessageCacheBuffer.size { buffer_ := [], capacity := 100 } }]) ∧
        (c.log_dropped.bind fun r => r.2.log_dropped) = some (out, c) ∧
        c.destructor = some (out, c) :=
  ⟨{ heap := [⟨[⟨1, 40⟩, ⟨2, 40⟩], 100⟩, ⟨[], 100⟩], primary_buffer_ := 0,
     secondary_buffer_ := 1, elements_dropped_ := 1 }, by decide, by decide, by decide, by decide,
    C8_log_dropped_reports_iff_dropped _ _ _ (by decide) (by decide)⟩

/-! ## Sequences of pushes -/

theorem MessageCache.push_step (c : MessageCache) (msg : SerializedBagMessage)
    (b : MessageCacheBuffer) (hb : c.deref c.primary_buffer_ = some b) :
    ∃ c1 : MessageCache, c.push msg = some ((b.push msg).1, c1) ∧
      c1.primary_buffer_ = c.primary_buffer_ ∧
      c1.secondary_buffer_ = c.secondary_buffer_ ∧
      c1.heap.length = c.heap.length ∧
      c1.deref c.primary_buffer_ = some (b.push msg).2 ∧
      (∀ p : BufferPtr, p ≠ c.primary_buffer_ → c1.deref p = c.deref p) ∧
      c1.elements_dropped_ = c.elements_dropped_ + (if (b.push msg).1 then 0 else 1) := by
  have hp : c.primary_buffer_ < c.heap.length :=
    lt_length_of_getElem? c.heap c.primary_buffer_ b hb
  refine ⟨_, MessageCache.push_eq c msg b hb, rfl, rfl, ?_, ?_, ?_, ?_⟩
  · simp
  · simp [MessageCache.deref, List.getElem?_set_self hp]
  · intro p hpne
    simp [MessageCache.deref, List.getElem?_set_ne (Ne.symm hpne)]
  · split <;> simp

theorem MessageCache.push_all_spec (msgs : List SerializedBagMessage) :
    ∀ (c : MessageCache) (b : MessageCacheBuffer), c.deref c.primary_buffer_ = some b →
    ∃ (oks : List Bool) (c1 : MessageCache), c.push_all msgs = some (oks, c1) ∧
      oks.length = msgs.length ∧
      c1.primary_buffer_ = c.primary_buffer_ ∧
      c1.secondary_buffer_ = c.secondary_buffer_ ∧
      c1.heap.length = c.heap.length ∧
      c1.deref c.primary_buffer_ =
        some { buffer_ := b.buffer_ ++ accepted msgs oks, capacity := b.capacity } ∧
      (∀ p : BufferPtr, p ≠ c.primary_buffer_ → c1.deref p = c.deref p) ∧
      c1.elements_dropped_ = c.elements_dropped_ + oks.count false := by
  induction msgs with
  | nil =>
    intro c b hb
    exact ⟨[], c, rfl, rfl, rfl, rfl, rfl, by simpa [accepted] using hb, fun _ _ => rfl, by simp⟩
  | cons msg msgs ih =>
    intro c b hb
    obtain ⟨c1, h1, hp1, hs1, hl1, hd1, hf1, hc1⟩ := MessageCache.push_step c msg b hb
    have hb1 : c1.deref c1.primary_buffer_ = some (b.push msg).2 := by rw [hp1]; exact hd1
    obtain ⟨oks, c2, h2, hlen, hp2, hs2, hl2, hd2, hf2, hc2⟩ := ih c1 _ hb1
    refine ⟨(b.push msg).1 :: oks, c2, ?_, ?_, ?_, ?_, ?_, ?_, ?_, ?_⟩
    · simp [MessageCache.push_all, h1, h2]
    · simp [hlen]
    · rw [hp2, hp1]
    · rw [hs2, hs1]
    · rw [hl2, hl1]
    · rw [hp1] at hd2
      rw [hd2, MessageCacheBuffer.push_snd]
      cases hr : (b.push msg).1 <;> simp [accepted]
    · intro p hpne
      rw [hf2 p (by rw [hp1]; exact hpne), hf1 p hpne]
    · rw [hc2, hc1]
      cases hr : (b.push msg).1 <;> simp [List.count_cons]
      omega

theorem MessageCache.push_all_within (msgs : List SerializedBagMessage) :
    ∀ (c : MessageCache) (b : MessageCacheBuffer), c.deref c.primary_buffer_ = some b →
    b.occupied_size + (msgs.map SerializedBagMessage.size).sum ≤ b.capacity →
    ∃ c1 : MessageCache, c.push_all msgs = some (List.replicate msgs.length true, c1) ∧
      c1.primary_buffer_ = c.primary_buffer_ ∧
      c1.deref c.primary_buffer_ =
        some { buffer_ := b.buffer_ ++ msgs, capacity := b.capacity } ∧
      c1.elements_dropped_ = c.elements_dropped_ := by
  induction msgs with
  | nil =>
    intro c b hb _
    exact ⟨c, rfl, rfl, by simpa using hb, rfl⟩
  | cons msg msgs ih =>
    intro c b hb hle
    simp only [List.map_cons, List.sum_cons] at hle
    have hok : (b.push msg).1 = true := by
      rw [MessageCacheBuffer.push_fst]; simp; omega
    obtain ⟨c1, h1, hp1, _, _, hd1, _, hc1⟩ := MessageCache.push_step c msg b hb
    have hb1 : c1.deref c1.primary_buffer_ = some (b.push msg).2 := by rw [hp1]; exact hd1
    have hsnd : (b.push msg).2 = { buffer_ := b.buffer_ ++ [msg], capacity := b.capacity } := by
      rw [MessageCacheBuffer.push_snd, hok]; simp
    have hle1 : (b.push msg).2.occupied_size + (msgs.map SerializedBagMessage.size).sum ≤
        (b.push msg).2.capacity := by
      rw [hsnd]
      simp only [MessageCacheBuffer.occupied_size, List.map_append, List.sum_append,
        List.map_cons, List.map_nil, List.sum_cons, List.sum_nil] at *
      omega
    obtain ⟨c2, h2, hp2, hd2, hc2⟩ := ih c1 _ hb1 hle1
    refine ⟨c2, ?_, ?_, ?_, ?_⟩
    · simp [MessageCache.push_all, h1, h2, hok, List.replicate_succ]
    · rw [hp2, hp1]
    · rw [hp1] at hd2
      rw [hd2, hsnd]; simp
    · rw [hc2, hc1, hok]; simp

/-- C2: on a newly constructed cache of capacity `cap`, pushing records whose
sizes sum to at most `cap` returns true for every push, leaves the dropped
counter at 0, and leaves the producer-facing buffer holding exactly the pushed
records, with occupied size the sum of their sizes; and in every state `push`
returns the append result of the producer-facing buffer. -/
theorem C2_pushes_within_capacity_all_accepted (cap : Nat) (msgs : List SerializedBagMessage)
    (hsum : (msgs.map SerializedBagMessage.size).sum ≤ cap) :
    (∃ c1 : MessageCache,
      (MessageCache.construct cap).push_all msgs = some (List.replicate msgs.length true, c1) ∧
      c1.elements_dropped_ = 0 ∧
      c1.deref c1.primary_buffer_ = some { buffer_ := msgs, capacity := cap } ∧
      (c1.deref c1.primary_buffer_).map MessageCacheBuffer.occupied_size =
        some (msgs.map SerializedBagMessage.size).sum) ∧
    (∀ (c : MessageCache) (msg : SerializedBagMessage) (b : MessageCacheBuffer),
      c.deref c.primary_buffer_ = some b →
      ∃ c2 : MessageCache, c.push msg = some ((b.push msg).1, c2)) := by
  constructor
  · have hb : (MessageCache.construct cap).deref (MessageCache.construct cap).primary_buffer_ =
        some (MessageCacheBuffer.construct cap) := by
      simp [MessageCache.construct, make_shared, MessageCache.deref]
    obtain ⟨c1, h1, hp1, hd1, hc1⟩ :=
      MessageCache.push_all_within msgs (MessageCache.construct cap) _ hb
        (by simpa [MessageCacheBuffer.construct, MessageCacheBuffer.occupied_size] using hsum)
    have hd : c1.deref c1.primary_buffer_ = some { buffer_ := msgs, capacity := cap } := by
      rw [hp1, hd1]; simp [MessageCacheBuffer.construct]
    refine ⟨c1, h1, ?_, hd, ?_⟩
    · rw [hc1]; rfl
    · rw [hd]; simp [MessageCacheBuffer.occupied_size]
  · intro c msg b hb
    exact ⟨_, MessageCache.push_eq c msg b hb⟩

/-- Witness for C2: capacity 100 and records of sizes 40, 40 and 20. -/
theorem C2_pushes_within_capacity_all_accepted_witness :
    (([⟨1, 40⟩, ⟨2, 40⟩, ⟨3, 20⟩] : List SerializedBagMessage).map
        SerializedBagMessage.size).sum ≤ 100 ∧
    (∃ c1 : MessageCache,
      (MessageCache.construct 100).push_all [⟨1, 40⟩, ⟨2, 40⟩, ⟨3, 20⟩] =
        some (List.replicate ([⟨1, 40⟩, ⟨2, 40⟩, ⟨3, 20⟩] : List SerializedBagMessage).length
          true, c1) ∧
      c1.elements_dropped_ = 0 ∧
      c1.deref c1.primary_buffer_ =
        some { buffer_ := [⟨1, 40⟩, ⟨2, 40⟩, ⟨3, 20⟩], capacity := 100 } ∧
      (c1.deref c1.primary_buffer_).map MessageCacheBuffer.occupied_size =
        some (([⟨1, 40⟩, ⟨2, 40⟩, ⟨3, 20⟩] : List SerializedBagMessage).map
          SerializedBagMessage.size).sum) ∧
    (∀ (c : MessageCache) (msg : SerializedBagMessage) (b : MessageCacheBuffer),
      c.deref c.primary_buffer_ = some b →
      ∃ c2 : MessageCache, c.push msg = some ((b.push msg).1, c2)) :=
  ⟨by decide,
    C2_pushes_within_capacity_all_accepted 100 [⟨1, 40⟩, ⟨2, 40⟩, ⟨3, 20⟩] (by decide)⟩

theorem MessageCache.construct_primary (cap : Nat) :
    (MessageCache.construct cap).deref (MessageCache.construct cap).primary_buffer_ =
      some (MessageCacheBuffer.construct cap) := by
  simp [MessageCache.construct, make_shared, MessageCache.deref]

theorem MessageCache.construct_secondary (cap : Nat) :
    (MessageCache.construct cap).deref (MessageCache.construct cap).secondary_buffer_ =
      some (MessageCacheBuffer.construct cap) := by
  simp [MessageCache.construct, make_shared, MessageCache.deref]

/-- C3 (as stated, refuted): from a new cache of capacity 100, push `a`, swap,
push `b`, swap, push `c`, swap.  All three pushes are accepted and the only
record pushed after the previous swap is `c`, but the consumer-facing buffer
after the last swap holds `a` and `c`. -/
theorem C3_counterexample_stale_record_in_consumer_view :
    ∃ c : MessageCache,
      (MessageCache.construct 100).run
          [.push ⟨1, 10⟩, .swap_when_allowed, .push ⟨2, 10⟩, .swap_when_allowed,
            .push ⟨3, 10⟩, .swap_when_allowed] =
        some ([.pushed true, .swapped, .pushed true, .swapped, .pushed true, .swapped], c) ∧
      pushed_since_previous_swap
          [.push ⟨1, 10⟩, .swap_when_allowed, .push ⟨2, 10⟩, .swap_when_allowed, .push ⟨3, 10⟩]
          [.pushed true, .swapped, .pushed true, .swapped, .pushed true] [] = [⟨3, 10⟩] ∧
      (c.deref c.consumer_buffer).map MessageCacheBuffer.buffer_ = some [⟨1, 10⟩, ⟨3, 10⟩] ∧
      (c.deref c.consumer_buffer).map MessageCacheBuffer.buffer_ ≠ some [⟨3, 10⟩] := by
  refine ⟨{ heap := [⟨[⟨1, 10⟩, ⟨3, 10⟩], 100⟩, ⟨[⟨2, 10⟩], 100⟩], primary_buffer_ := 1,
            secondary_buffer_ := 0, elements_dropped_ := 0 }, ?_, ?_, ?_, ?_⟩ <;> decide

/-- C3 (amended): let `c` be the state right after the previous swap (or after
construction) and `b` the buffer that is producer-facing there.  After any
pushes `msgs` and the next `swap_when_allowed`, the buffer returned by
`consumer_buffer` holds what `b` already held, followed by exactly the records
among `msgs` whose push returned true, in push order; when `b` was empty it
holds exactly those records, and its occupied size is the sum of their sizes. -/
theorem C3_consumer_view_is_filled_producer_buffer (c : MessageCache) (b : MessageCacheBuffer)
    (msgs : List SerializedBagMessage) (hb : c.deref c.primary_buffer_ = some b) :
    ∃ (oks : List Bool) (c1 : MessageCache), c.push_all msgs = some (oks, c1) ∧
      oks.length = msgs.length ∧
      c1.swap_when_allowed.deref c1.swap_when_allowed.consumer_buffer =
        some { buffer_ := b.buffer_ ++ accepted msgs oks, capacity := b.capacity } ∧
      (b.buffer_ = [] →
        (c1.swap_when_allowed.deref c1.swap_when_allowed.consumer_buffer).map
            MessageCacheBuffer.buffer_ = some (accepted msgs oks) ∧
        (c1.swap_when_allowed.deref c1.swap_when_allowed.consumer_buffer).map
            MessageCacheBuffer.occupied_size =
          some ((accepted msgs oks).map SerializedBagMessage.size).sum) := by
  obtain ⟨oks, c1, h1, hlen, hp1, _, _, hd1, _, _⟩ := MessageCache.push_all_spec msgs c b hb
  have hcons : c1.swap_when_allowed.deref c1.swap_when_allowed.consumer_buffer =
      some { buffer_ := b.buffer_ ++ accepted msgs oks, capacity := b.capacity } := by
    rw [← hd1, ← hp1]; rfl
  refine ⟨oks, c1, h1, hlen, hcons, ?_⟩
  intro hempty
  rw [hcons, hempty]
  simp [MessageCacheBuffer.occupied_size]

/-- Witness for C3: capacity 100, pushes of size 40, 40 and 30, then a swap: the
consumer view holds the first two records in order and has occupied size 80. -/
theorem C3_consumer_view_is_filled_producer_buffer_witness :
    (MessageCache.construct 100).deref (MessageCache.construct 100).primary_buffer_ =
      some (MessageCacheBuffer.construct 100) ∧
    (∃ (oks : List Bool) (c1 : MessageCache),
      (MessageCache.construct 100).push_all [⟨1, 40⟩, ⟨2, 40⟩, ⟨3, 30⟩] = some (oks, c1) ∧
      oks.length = ([⟨1, 40⟩, ⟨2, 40⟩, ⟨3, 30⟩] : List SerializedBagMessage).length ∧
      c1.swap_when_allowed.deref c1.swap_when_allowed.consumer_buffer =
        some { buffer_ := (MessageCacheBuffer.construct 100).buffer_ ++
                  accepted [⟨1, 40⟩, ⟨2, 40⟩, ⟨3, 30⟩] oks,
               capacity := (MessageCacheBuffer.construct 100).capacity } ∧
      ((MessageCacheBuffer.construct 100).buffer_ = [] →
        (c1.swap_when_allowed.deref c1.swap_when_allowed.consumer_buffer).map
            MessageCacheBuffer.buffer_ = some (accepted [⟨1, 40⟩, ⟨2, 40⟩, ⟨3, 30⟩] oks) ∧
        (c1.swap_when_allowed.deref c1.swap_when_allowed.consumer_buffer).map
            MessageCacheBuffer.occupied_size =
          some ((accepted [⟨1, 40⟩, ⟨2, 40⟩, ⟨3, 30⟩] oks).map
            SerializedBagMessage.size).sum)) ∧
    (∃ c1 : MessageCache,
      (MessageCache.construct 100).push_all [⟨1, 40⟩, ⟨2, 40⟩, ⟨3, 30⟩] =
        some ([true, true, false], c1) ∧
      c1.swap_when_allowed.deref c1.swap_when_allowed.consumer_buffer =
        some { buffer_ := [⟨1, 40⟩, ⟨2, 40⟩], capacity := 100 } ∧
      (c1.swap_when_allowed.deref c1.swap_when_allowed.consumer_buffer).map
        MessageCacheBuffer.occupied_size = some 80) :=
  ⟨by decide,
    C3_consumer_view_is_filled_producer_buffer (MessageCache.construct 100)
      (MessageCacheBuffer.construct 100) [⟨1, 40⟩, ⟨2, 40⟩, ⟨3, 30⟩] (by decide),
    ⟨{ heap := [⟨[⟨1, 40⟩, ⟨2, 40⟩], 100⟩, ⟨[], 100⟩], primary_buffer_ := 0,
       secondary_buffer_ := 1, elements_dropped_ := 1 }, by decide, by decide, by decide⟩⟩

/-- C4 (as stated, refuted): the state reached from a new cache of capacity 100
by push `a`, swap is reachable by push and swap operations; after a further
`swap_when_allowed` the producer-facing buffer holds `a` and has occupied
size 10, not 0. -/
theorem C4_counterexample_producer_buffer_not_empty_after_swap :
    ∃ c : MessageCache,
      (MessageCache.construct 100).run [.push ⟨1, 10⟩, .swap_when_allowed] =
        some ([.pushed true, .swapped], c) ∧
      c.swap_when_allowed.deref c.swap_when_allowed.primary_buffer_ =
        some { buffer_ := [⟨1, 10⟩], capacity := 100 } ∧
      (c.swap_when_allowed.deref c.swap_when_allowed.primary_buffer_).map
        MessageCacheBuffer.occupied_size = some 10 ∧
      (c.swap_when_allowed.deref c.swap_when_allowed.primary_buffer_).map
        MessageCacheBuffer.occupied_size ≠ some 0 := by
  refine ⟨{ heap := [⟨[⟨1, 10⟩], 100⟩, ⟨[], 100⟩], primary_buffer_ := 1,
            secondary_buffer_ := 0, elements_dropped_ := 0 }, ?_, ?_, ?_, ?_⟩ <;> decide

/-- C4 (amended): immediately after `swap_when_allowed` the producer-facing
buffer is the object that was consumer-facing before the swap, with its
contents unchanged; after the first swap of a newly constructed cache, whatever
was pushed before it, that buffer is empty with occupied size 0. -/
theorem C4_producer_buffer_after_swap_is_old_consumer_buffer :
    (∀ c : MessageCache,
      c.swap_when_allowed.deref c.swap_when_allowed.primary_buffer_ =
        c.deref c.consumer_buffer) ∧
    (∀ (cap : Nat) (msgs : List SerializedBagMessage),
      ∃ (oks : List Bool) (c1 : MessageCache),
        (MessageCache.construct cap).push_all msgs = some (oks, c1) ∧
        c1.swap_when_allowed.deref c1.swap_when_allowed.primary_buffer_ =
          some { buffer_ := [], capacity := cap } ∧
        (c1.swap_when_allowed.deref c1.swap_when_allowed.primary_buffer_).map
          MessageCacheBuffer.occupied_size = some 0) := by
  refine ⟨fun _ => rfl, ?_⟩
  intro cap msgs
  obtain ⟨oks, c1, h1, _, _, hs1, _, _, hf1, _⟩ :=
    MessageCache.push_all_spec msgs (MessageCache.construct cap) _
      (MessageCache.construct_primary cap)
  have hne : (MessageCache.construct cap).secondary_buffer_ ≠
      (MessageCache.construct cap).primary_buffer_ := by
    simp [MessageCache.construct, make_shared]
  have hd : c1.swap_when_allowed.deref c1.swap_when_allowed.primary_buffer_ =
      some { buffer_ := [], capacity := cap } := by
    show c1.deref c1.secondary_buffer_ = _
    rw [hs1, hf1 _ hne, MessageCache.construct_secondary]
    rfl
  refine ⟨oks, c1, h1, hd, ?_⟩
  rw [hd]; rfl

/-! ## The role invariant along sequences of operations -/

theorem MessageCache.roleInv_iff (cap : Nat) (c : MessageCache) :
    c.RoleInv cap ↔
      c.heap.length = 2 ∧
      ((c.primary_buffer_ = 0 ∧ c.secondary_buffer_ = 1) ∨
        (c.primary_buffer_ = 1 ∧ c.secondary_buffer_ = 0)) ∧
      c.primary_buffer_ ≠ c.secondary_buffer_ ∧
      ∀ b ∈ c.heap, b.capacity = cap := by
  simp [MessageCache.RoleInv, MessageCache.construct, make_shared]

theorem MessageCache.roleInv_construct (cap : Nat) : (MessageCache.construct cap).RoleInv cap := by
  rw [MessageCache.roleInv_iff]
  simp [MessageCache.construct, make_shared, MessageCacheBuffer.construct]

theorem MessageCache.RoleInv.valid {cap : Nat} {c : MessageCache} (h : c.RoleInv cap) :
    c.Valid := by
  rw [MessageCache.roleInv_iff] at h
  obtain ⟨hl, hr, hne, _⟩ := h
  unfold MessageCache.Valid
  rcases hr with ⟨h1, h2⟩ | ⟨h1, h2⟩ <;> simp [h1, h2, hl]

theorem sum_map_set {α : Type} (f : α → Nat) (l : List α) (i : Nat) (a b : α)
    (h : l[i]? = some a) : ((l.set i b).map f).sum + f a = (l.map f).sum + f b := by
  induction l generalizing i with
  | nil => simp at h
  | cons x xs ih =>
    cases i with
    | zero =>
      simp at h
      subst h
      simp only [List.set_cons_zero, List.map_cons, List.sum_cons]
      omega
    | succ j =>
      simp at h
      have := ih j h
      simp only [List.set_cons_succ, List.map_cons, List.sum_cons]
      omega

theorem MessageCache.step_inv (cap : Nat) (c : MessageCache) (op : CacheOp)
    (h : c.RoleInv cap) :
    ∃ (r : CacheResult) (c1 : MessageCache), c.step op = some (r, c1) ∧ c1.RoleInv cap ∧
      c1.elements_dropped_ = c.elements_dropped_ + (if r = .pushed false then 1 else 0) ∧
      c1.stored_records = c.stored_records + (if r = .pushed true then 1 else 0) ∧
      push_calls [op] = push_results true [r] + push_results false [r] := by
  have hv := h.valid
  cases op with
  | push msg =>
    obtain ⟨hp, _, _⟩ := hv
    have hb : c.deref c.primary_buffer_ = some (c.heap.get ⟨c.primary_buffer_, hp⟩) := by
      simp [MessageCache.deref, List.getElem?_eq_getElem hp]
    generalize c.heap.get ⟨c.primary_buffer_, hp⟩ = b at hb
    have hmem : b ∈ c.heap := List.getElem?_mem hb
    have hstep : c.step (.push msg) = some (.pushed (b.push msg).1,
        { heap := c.heap.set c.primary_buffer_ (b.push msg).2,
          primary_buffer_ := c.primary_buffer_,
          secondary_buffer_ := c.secondary_buffer_,
          elements_dropped_ :=
            if (b.push msg).1 then c.elements_dropped_ else c.elements_dropped_ + 1 }) := by
      simp only [MessageCache.step, MessageCache.push_eq c msg b hb]
    refine ⟨_, _, hstep, ?_, ?_, ?_, ?_⟩
    · rw [MessageCache.roleInv_iff] at h ⊢
      obtain ⟨hl, hr, hne, hcap⟩ := h
      refine ⟨by simpa using hl, hr, hne, ?_⟩
      intro b1 hb1
      rcases List.mem_or_eq_of_mem_set hb1 with hin | heq
      · exact hcap b1 hin
      · rw [heq, MessageCacheBuffer.push_snd]
        exact hcap b hmem
    · cases hr : (b.push msg).1 <;> simp
    · have hs := sum_map_set (fun b : MessageCacheBuffer => b.buffer_.length) c.heap
        c.primary_buffer_ b (b.push msg).2 hb
      simp only [MessageCache.stored_records]
      rw [MessageCacheBuffer.push_snd] at hs ⊢
      cases hr : (b.push msg).1 <;> simp [hr] at hs ⊢ <;> omega
    · cases hr : (b.push msg).1 <;> simp [push_calls, push_results]
  | swap_when_allowed =>
    refine ⟨.swapped, c.swap_when_allowed, rfl, ?_, by simp [MessageCache.swap_when_allowed],
      by simp [MessageCache.stored_records, MessageCache.swap_when_allowed],
      by simp [push_calls, push_results]⟩
    rw [MessageCache.roleInv_iff] at h ⊢
    obtain ⟨hl, hr, hne, hcap⟩ := h
    refine ⟨hl, ?_, Ne.symm hne, hcap⟩
    rcases hr with ⟨h1, h2⟩ | ⟨h1, h2⟩
    · exact Or.inr ⟨h2, h1⟩
    · exact Or.inl ⟨h2, h1⟩
  | consumer_buffer =>
    exact ⟨.buffer c.consumer_buffer, c, rfl, h, by simp, by simp, by simp [push_calls, push_results]⟩
  | log_dropped =>
    obtain ⟨hp, hs, _⟩ := hv
    have hbp : c.deref c.primary_buffer_ = some (c.heap.get ⟨c.primary_buffer_, hp⟩) := by
      simp [MessageCache.deref, List.getElem?_eq_getElem hp]
    have hbs : c.deref c.secondary_buffer_ = some (c.heap.get ⟨c.secondary_buffer_, hs⟩) := by
      simp [MessageCache.deref, List.getElem?_eq_getElem hs]
    have hl : ∃ out, c.log_dropped = some (out, c) := by
      unfold MessageCache.log_dropped MessageCache.left_in_buffers
      rw [hbp, hbs]
      split <;> simp
    obtain ⟨out, hout⟩ := hl
    exact ⟨.logged out, c, by simp [MessageCache.step, hout], h, by simp, by simp,
      by simp [push_calls, push_results]⟩

theorem push_calls_cons (op : CacheOp) (ops : List CacheOp) :
    push_calls (op :: ops) = push_calls [op] + push_calls ops := by
  cases op <;> simp [push_calls, Nat.add_comm]

theorem push_results_cons (ok : Bool) (r : CacheResult) (rs : List CacheResult) :
    push_results ok (r :: rs) = push_results ok [r] + push_results ok rs := by
  cases r with
  | pushed b => by_cases hb : b = ok <;> simp [push_results, hb, Nat.add_comm]
  | swapped => simp [push_results]
  | buffer p => simp [push_results]
  | logged out => simp [push_results]

theorem push_results_single (ok : Bool) (r : CacheResult) :
    push_results ok [r] = if r = .pushed ok then 1 else 0 := by
  cases r with
  | pushed b => by_cases hb : b = ok <;> simp [push_results, hb]
  | swapped => simp [push_results]
  | buffer p => simp [push_results]
  | logged out => simp [push_results]

theorem MessageCache.run_inv (cap : Nat) (ops : List CacheOp) :
    ∀ c : MessageCache, c.RoleInv cap →
    ∃ (rs : List CacheResult) (c1 : MessageCache), c.run ops = some (rs, c1) ∧
      c1.RoleInv cap ∧ rs.length = ops.length ∧
      c1.elements_dropped_ = c.elements_dropped_ + push_results false rs ∧
      c1.stored_records = c.stored_records + push_results true rs ∧
      push_calls ops = push_results true rs + push_results false rs := by
  induction ops with
  | nil =>
    intro c h
    exact ⟨[], c, rfl, h, rfl, by simp [push_results], by simp [push_results],
      by simp [push_calls, push_results]⟩
  | cons op ops ih =>
    intro c h
    obtain ⟨r, c1, h1, hinv1, hd1, hs1, hn1⟩ := MessageCache.step_inv cap c op h
    obtain ⟨rs, c2, h2, hinv2, hlen, hd2, hs2, hn2⟩ := ih c1 hinv1
    refine ⟨r :: rs, c2, by simp [MessageCache.run, h1, h2], hinv2, by simp [hlen], ?_, ?_, ?_⟩
    · rw [hd2, hd1, push_results_cons false r rs, push_results_single]; omega
    · rw [hs2, hs1, push_results_cons true r rs, push_results_single]; omega
    · rw [push_calls_cons, push_results_cons true r rs, push_results_cons false r rs, hn1, hn2]
      omega

/-- C5: for every sequence of push, swap_when_allowed, consumer_buffer and
log_dropped calls on a newly constructed cache, every call returns without a
fault, the dropped counter equals the number of push calls that returned false,
the number of records held by the buffers equals the number of push calls that
returned true, so the number of push calls is the number of stored records plus
the dropped counter; and from the state reached, any further call changes the
counter only by adding one when it is a rejected push. -/
theorem C5_dropped_counter_counts_rejected_pushes (cap : Nat) (ops : List CacheOp) :
    ∃ (rs : List CacheResult) (c : MessageCache),
      (MessageCache.construct cap).run ops = some (rs, c) ∧
      rs.length = ops.length ∧
      c.elements_dropped_ = push_results false rs ∧
      c.stored_records = push_results true rs ∧
      push_calls ops = c.stored_records + c.elements_dropped_ ∧
      ∀ op : CacheOp, ∃ (r : CacheResult) (c1 : MessageCache), c.step op = some (r, c1) ∧
        c1.elements_dropped_ = c.elements_dropped_ + (if r = .pushed false then 1 else 0) := by
  obtain ⟨rs, c, hrun, hinv, hlen, hd, hs, hn⟩ :=
    MessageCache.run_inv cap ops (MessageCache.construct cap) (MessageCache.roleInv_construct cap)
  have hd0 : c.elements_dropped_ = push_results false rs := by
    rw [hd]; simp [MessageCache.construct]
  have hs0 : c.stored_records = push_results true rs := by
    rw [hs]
    simp [MessageCache.stored_records, MessageCache.construct, make_shared,
      MessageCacheBuffer.construct]
  refine ⟨rs, c, hrun, hlen, hd0, hs0, by rw [hn, hs0, hd0], ?_⟩
  intro op
  obtain ⟨r, c1, h1, _, hd1, _, _⟩ := MessageCache.step_inv cap c op hinv
  exact ⟨r, c1, h1, hd1⟩

/-- C7: for every sequence of push, swap_when_allowed, consumer_buffer and
log_dropped calls on a cache constructed with capacity `cap`, every call returns
without a fault and in the state reached the two pointers are the two addresses
allocated by the constructor, one in each role and never the same one, no
further buffer object exists, both pointers reference an object, and every
buffer object has capacity `cap`. -/
theorem C7_role_invariant_in_reachable_states (cap : Nat) (ops : List CacheOp) :
    ∃ (rs : List CacheResult) (c : MessageCache),
      (MessageCache.construct cap).run ops = some (rs, c) ∧
      c.RoleInv cap ∧ c.Valid ∧
      c.heap.length = 2 ∧
      c.primary_buffer_ ≠ c.secondary_buffer_ ∧
      ((c.primary_buffer_ = (MessageCache.construct cap).primary_buffer_ ∧
          c.secondary_buffer_ = (MessageCache.construct cap).secondary_buffer_) ∨
        (c.primary_buffer_ = (MessageCache.construct cap).secondary_buffer_ ∧
          c.secondary_buffer_ = (MessageCache.construct cap).primary_buffer_)) ∧
      (∃ p s : MessageCacheBuffer, c.deref c.primary_buffer_ = some p ∧
        c.deref c.secondary_buffer_ = some s ∧ p.capacity = cap ∧ s.capacity = cap) := by
  obtain ⟨rs, c, hrun, hinv, _⟩ :=
    MessageCache.run_inv cap ops (MessageCache.construct cap) (MessageCache.roleInv_construct cap)
  have hv := hinv.valid
  have hinv1 := hinv
  rw [MessageCache.roleInv_iff] at hinv1
  obtain ⟨hl, _, hne, hcap⟩ := hinv1
  obtain ⟨hp, hs, _⟩ := hv
  refine ⟨rs, c, hrun, hinv, hinv.valid, hl, hne, hinv.2.1,
    c.heap.get ⟨c.primary_buffer_, hp⟩, c.heap.get ⟨c.secondary_buffer_, hs⟩, ?_, ?_, ?_, ?_⟩
  · simp [MessageCache.deref, List.getElem?_eq_getElem hp]
  · simp [MessageCache.deref, List.getElem?_eq_getElem hs]
  · exact hcap _ (List.get_mem _ _ _)
  · exact hcap _ (List.get_mem _ _ _)
